import Mathlib

/-!
Verification development for the StarwinAdmin back-office server.

The file shallowly embeds the two core pieces of src/server.js — the
dual-backend store adapter (dbWrapper, with its placeholder rewrite and
insert-id retrieval) and the dashboard aggregation logic of the
GET /api/dashboard-summary handler — together with the login handler,
and proves or refutes the specified properties about them.
-/

namespace Starwin

/-- JavaScript number semantics restricted to what the dashboard needs:
either NaN or an exact value. REAL column values are modelled by rationals. -/
inductive JNum where
  | nan : JNum
  | num (q : ℚ) : JNum
deriving DecidableEq

/-- JavaScript addition on numbers: NaN is absorbing, otherwise exact. -/
def JNum.add : JNum → JNum → JNum
  | .nan, _ => .nan
  | _, .nan => .nan
  | .num a, .num b => .num (a + b)

/-- Nullable numeric column value as the database drivers deliver it to JS:
`none` is SQL NULL (JS null), `some q` a numeric value. -/
abbrev Price := Option ℚ

/-- ToNumber coercion applied by the JS `+` operator to a column value:
null coerces to +0. Only `undefined` would coerce to NaN, and result rows
always carry every selected column, so no operand is ever `undefined`. -/
def toJNum : Price → JNum
  | none => .num 0
  | some q => .num q

/-- Models the JS idiom `(x || 0)` on a nullable numeric column: null and 0
are falsy and give 0, any other number is returned unchanged. -/
def jsOr (x : Price) : ℚ := x.getD 0

/-- Abstract datetime: the calendar `year` and 0-based `month` that
getFullYear/getMonth report for the value, plus the epoch instant `t`
used by JS date comparison and subtraction. -/
structure DT where
  year : Int
  month : Int
  t : Int
deriving DecidableEq

/-- Row of the `orders` table as the active-orders read returns it
(server.js line 165, SELECT * FROM orders ...). -/
structure Order where
  is_active : Bool
  status : String
  agreed_price : Price
  paid_price : Price
  cost_price : Price
  createdAt : DT
deriving DecidableEq

/-- Row of the joined orders read feeding the upcoming-events feed
(server.js line 167: SELECT o.*, c.name as clientName ...). -/
structure ORow where
  id : Int
  client_id : Int
  clientName : String
  is_active : Bool
  status : String
  due_datetime : Option DT
deriving DecidableEq

/-- Row of the joined measurement-tasks read (server.js line 166). -/
structure MRow where
  id : Int
  client_id : Int
  clientName : String
  task_datetime : Option DT
  is_completed : Bool
deriving DecidableEq

/-- WHERE clause of the active-orders read (server.js line 165):
is_active = true AND status != Cancelado. -/
def activeOrdersOf (rows : List Order) : List Order :=
  rows.filter fun o => o.is_active && !(o.status == "Cancelado")

/-- WHERE clause of the measurement-tasks read (server.js line 166):
is_completed = false. -/
def measurementsOf (rows : List MRow) : List MRow :=
  rows.filter fun m => !m.is_completed

/-- WHERE clause of the orders-for-tasks read (server.js line 167):
is_active = true AND status NOT IN (Finalizado, Cancelado). -/
def ordersForTasksOf (rows : List ORow) : List ORow :=
  rows.filter fun o =>
    o.is_active && !(o.status == "Finalizado") && !(o.status == "Cancelado")

/-- Dashboard KPI record (server.js lines 170-172). -/
structure Kpis where
  totalPaid : ℚ
  totalCosts : ℚ
  netProfit : ℚ
  totalDebt : ℚ
deriving DecidableEq

/-- KPI computation of server.js lines 170-172: reduces over the active
orders, each price passed through `(x || 0)` so a null contributes 0. -/
def kpisOf (ao : List Order) : Kpis :=
  let totalPaid := ao.foldl (fun s o => s + jsOr o.paid_price) 0
  let totalCosts := ao.foldl (fun s o => s + jsOr o.cost_price) 0
  let netProfit := totalPaid - totalCosts
  let totalDebt := (ao.foldl (fun s o => s + jsOr o.agreed_price) 0) - totalPaid
  { totalPaid := totalPaid, totalCosts := totalCosts,
    netProfit := netProfit, totalDebt := totalDebt }

/-- Entry of the status histogram (server.js line 174). -/
structure SC where
  status : String
  count : Nat
deriving DecidableEq

/-- One step of the status-count accumulation of server.js line 173:
acc[status] = (acc[status] || 0) + 1 on a JS object, modelled as an
association list in key-insertion order (the status strings of the data
model are plain words, for which JS object key order is insertion order). -/
def bump : List (String × Nat) → String → List (String × Nat)
  | [], s => [(s, 1)]
  | (t, c) :: rest, s =>
    if t = s then (t, c + 1) :: rest else (t, c) :: bump rest s

/-- Status-count object of server.js line 173, built by reduce over the
statuses in scan order. -/
def statusCounts (sts : List String) : List (String × Nat) :=
  sts.foldl bump []

/-- Comparator of server.js line 174, (a, b) => b.count - a.count, read as
the may-precede relation used by the stable JS Array sort. -/
def scLE (a b : SC) : Prop := b.count ≤ a.count

instance : DecidableRel scLE := fun a b => Nat.decLe b.count a.count

instance : IsTotal SC scLE := ⟨fun a b => Nat.le_total b.count a.count⟩

instance : IsTrans SC scLE := ⟨fun _ _ _ hab hbc => le_trans hbc hab⟩

/-- statusSummary of server.js line 174: Object.entries of the count object
mapped to status/count records, stably sorted by count descending. -/
def statusSummaryOf (ao : List Order) : List SC :=
  List.insertionSort scLE
    ((statusCounts (ao.map Order.status)).map fun p => ⟨p.1, p.2⟩)

/-- Sequence of the distinct statuses in the order they are first
encountered while scanning; states the tie-breaking clause of the claim. -/
def firstSeen : List String → List String
  | [] => []
  | s :: rest => s :: firstSeen (rest.filter fun t => !(t == s))
termination_by l => l.length
decreasing_by
  simpa using Nat.lt_succ_of_le (List.length_filter_le _ rest)

/-- Index of the first occurrence of s in l (length of l when absent). -/
def posIn (l : List String) (s : String) : Nat :=
  match l with
  | [] => 0
  | t :: rest => if t = s then 0 else posIn rest s + 1

/-- Lookup in the association-list model of the JS count object. -/
def lookupC : List (String × Nat) → String → Option Nat
  | [], _ => none
  | (t, c) :: rest, s => if t = s then some c else lookupC rest s

/-- Statuses already present as keys dropped from a scan list. -/
def dropKeys (ks : List String) (l : List String) : List String :=
  l.filter fun s => !(decide (s ∈ ks))

/-- Monthly financial entry of server.js line 175. The JS code labels each
bucket with a locale-formatted rendering of the bucket date; the model
carries the calendar year and 0-based month that the label renders. The
sums are JS numbers, since the reduce of line 175 adds raw column values. -/
structure MonthEntry where
  year : Int
  month : Int
  agreed : JNum
  paid : JNum
  cost : JNum
deriving DecidableEq

/-- Bucket date of new Date(now.getFullYear(), now.getMonth() - i, 1): the
JS Date constructor normalizes the month index into 0..11, carrying the
overflow or underflow into the year. -/
def bucketOf (now : DT) (i : Int) : Int × Int :=
  ((12 * now.year + now.month - i) / 12, (12 * now.year + now.month - i) % 12)

/-- Orders of a month bucket: the filter of line 175 compares getFullYear
and getMonth of createdAt against those of the bucket date. -/
def bucketOrders (now : DT) (i : Int) (ao : List Order) : List Order :=
  ao.filter fun o =>
    o.createdAt.year == (bucketOf now i).1 &&
      o.createdAt.month == (bucketOf now i).2

/-- Reduce of line 175 over one price column: s + price with no null
guard, under JS number semantics. -/
def jsum (f : Order → Price) (l : List Order) : JNum :=
  l.foldl (fun s o => JNum.add s (toJNum (f o))) (.num 0)

/-- Entry pushed by one iteration of the loop of server.js line 175 for the
bucket i months before the current month. -/
def monthEntry (now : DT) (ao : List Order) (i : Int) : MonthEntry :=
  { year := (bucketOf now i).1,
    month := (bucketOf now i).2,
    agreed := jsum (fun o => o.agreed_price) (bucketOrders now i ao),
    paid := jsum (fun o => o.paid_price) (bucketOrders now i ao),
    cost := jsum (fun o => o.cost_price) (bucketOrders now i ao) }

/-- monthlyFinancials of server.js line 175: the loop runs i = 5 down to 0
and pushes one entry per iteration, so entry j is the bucket 5 - j months
before the current month. -/
def monthlyFinancialsOf (now : DT) (ao : List Order) : List MonthEntry :=
  [monthEntry now ao 5, monthEntry now ao 4, monthEntry now ao 3,
   monthEntry now ao 2, monthEntry now ao 1, monthEntry now ao 0]

/-- Upcoming event record of server.js line 176. -/
structure Event where
  id : Int
  type : String
  icon : String
  date : DT
  clientName : String
  clientId : Int
deriving DecidableEq

/-- Delivery events of server.js line 176: one per order row with a truthy
due_datetime at or after today. The JS type tag Entrega is the Spanish
label the code uses for the Delivery event type of the spec. -/
def orderEvents (today : DT) (l : List ORow) : List Event :=
  l.filterMap fun o =>
    match o.due_datetime with
    | none => none
    | some d =>
      if today.t ≤ d.t then
        some { id := o.id, type := "Entrega", icon := "rocket-outline",
               date := d, clientName := o.clientName, clientId := o.client_id }
      else none

/-- Measurement events of server.js line 176 (JS type tag Medición, the
label for the Measurement event type of the spec): one per task row with a
truthy task_datetime at or after today. -/
def measurementEvents (today : DT) (l : List MRow) : List Event :=
  l.filterMap fun m =>
    match m.task_datetime with
    | none => none
    | some d =>
      if today.t ≤ d.t then
        some { id := m.id, type := "Medición", icon := "build-outline",
               date := d, clientName := m.clientName, clientId := m.client_id }
      else none

/-- upcomingTasks array of server.js line 176: the loop pushes all order
events first, then all measurement events. -/
def upcomingOf (today : DT) (oft : List ORow) (ms : List MRow) : List Event :=
  orderEvents today oft ++ measurementEvents today ms

/-- May-precede relation of the comparator (a, b) => a.date - b.date of
server.js line 177. -/
def evLE (a b : Event) : Prop := a.date.t ≤ b.date.t

instance : DecidableRel evLE := fun a b => Int.decLe a.date.t b.date.t

instance : IsTotal Event evLE := ⟨fun a b => Int.le_total a.date.t b.date.t⟩

instance : IsTrans Event evLE := ⟨fun _ _ _ h1 h2 => le_trans h1 h2⟩

/-- sortedTasks of server.js line 177: stable ascending sort by event date,
then slice(0, 5). -/
def sortedTasksOf (today : DT) (oft : List ORow) (ms : List MRow) : List Event :=
  (List.insertionSort evLE (upcomingOf today oft ms)).take 5

/-- Concrete rows for the worked example of the spec: one order due two
days after the reference moment and one measurement task due one day
after it. -/
def exOrderRow : ORow :=
  { id := 1, client_id := 10, clientName := "Acme", is_active := true,
    status := "Pendiente", due_datetime := some ⟨2024, 7, 2⟩ }

/-- Measurement-task row of the worked example. -/
def exTaskRow : MRow :=
  { id := 2, client_id := 11, clientName := "Beta",
    task_datetime := some ⟨2024, 7, 1⟩, is_completed := false }

/-- Concrete active order whose agreed_price is SQL NULL, created in the
current month of the reference clock below. -/
def nullPriceOrder : Order :=
  { is_active := true, status := "Pendiente", agreed_price := none,
    paid_price := some 100, cost_price := some 40, createdAt := ⟨2024, 7, 10⟩ }

/-- HTTP response of the login handler (server.js lines 156-160). -/
structure LoginResp where
  status : Nat
  success : Bool
  message : Option String
deriving DecidableEq

/-- POST /api/login handler of server.js lines 156-160: strict equality of
the submitted password field against the configured secret; a missing field
(undefined) never equals a string, modelled by the none case. The handler
reads and writes no state: it is a pure function of the request body. -/
def loginHandler (adminPassword : String) (password : Option String) : LoginResp :=
  if password = some adminPassword then
    { status := 200, success := true, message := none }
  else
    { status := 401, success := false, message := some "Contraseña incorrecta" }

/-- Default configured secret of server.js line 11. -/
def defaultAdminPassword : String := "123451"

/-- Fuel-indexed scanner of the regex replace; the fuel bounds the number
of characters consumed, making the recursion structural, and
rewritePlaceholders always supplies enough fuel for the whole input. -/
def rewriteAux : Nat → List Char → List Char
  | 0, l => l
  | _ + 1, [] => []
  | fuel + 1, c :: rest =>
    if c = '$' then
      if (rest.takeWhile Char.isDigit).isEmpty then '$' :: rewriteAux fuel rest
      else '?' :: rewriteAux fuel (rest.dropWhile Char.isDigit)
    else c :: rewriteAux fuel rest

/-- Regex replace of server.js lines 25, 35 and 45:
sql.replace of every match of a dollar sign followed by one or more digits
with one question mark, scanning left to right; every other character,
quoted or not, is copied unchanged. -/
def rewritePlaceholders (l : List Char) : List Char :=
  rewriteAux l.length l

/-- String-level wrapper of the placeholder rewrite, as the sqlite branch
of each dbWrapper operation applies it. -/
def rewriteSql (s : String) : String :=
  ⟨rewritePlaceholders s.data⟩

/-- Numeric value of a digit run: how the networked server reads the index
of a placeholder token. -/
def digitsToNat (ds : List Char) : Nat :=
  ds.foldl (fun n c => 10 * n + (c.toNat - 48)) 0

/-- Fuel-indexed placeholder scanner mirroring the traversal of rewriteAux:
the numeric indices of the regex matches in text order. -/
def scanAux : Nat → List Char → List Nat
  | 0, _ => []
  | _ + 1, [] => []
  | fuel + 1, c :: rest =>
    if c = '$' then
      if (rest.takeWhile Char.isDigit).isEmpty then scanAux fuel rest
      else digitsToNat (rest.takeWhile Char.isDigit)
        :: scanAux fuel (rest.dropWhile Char.isDigit)
    else scanAux fuel rest

/-- Numeric indices of the placeholder matches of a statement, in text
order. -/
def scanPlaceholders (l : List Char) : List Nat :=
  scanAux l.length l

/-- Modelled from the networked driver contract the source relies on:
postgres binds the placeholder with numeric index n to params[n - 1];
listed here per occurrence in text order. -/
def pgBindings (sql : String) (params : List Int) : List (Option Int) :=
  (scanPlaceholders sql.data).map fun n => params.get? (n - 1)

/-- Modelled from the embedded driver contract the source relies on: sqlite
binds the k-th question-mark token of the executed (rewritten) statement to
params[k]. -/
def sqliteBindings (sql : String) (params : List Int) : List (Option Int) :=
  (List.range ((rewritePlaceholders sql.data).count '?')).map
    fun k => params.get? k

/-- Statement of the kind the update handlers issue, with canonical
placeholders appearing out of numeric order. -/
def outOfOrderSql : String := "UPDATE orders SET paid_price=$2 WHERE id=$1"

/-- Quote character of SQL string literals. -/
def sqlQuote : Char := Char.ofNat 39

/-- Statement text SELECT <quote>$1<quote> AS x: a placeholder-shaped token
inside a quoted SQL string literal. -/
def quotedSql : List Char :=
  "SELECT ".data ++ sqlQuote :: '$' :: '1' :: sqlQuote :: " AS x".data

/-- Rewrite of quotedSql: the regex is quote-oblivious and rewrites even
the quoted token. -/
def quotedSqlRewritten : List Char :=
  "SELECT ".data ++ sqlQuote :: '?' :: sqlQuote :: " AS x".data

/-- Row object as the drivers deliver it: association list of column name
to value (integer values suffice for the id-normalization contract). -/
abbrev Row := List (String × Int)

/-- Result shape the pg driver resolves query() with. -/
structure PgResult where
  rows : List Row
  rowCount : Nat
deriving DecidableEq

/-- Result shape the sqlite driver resolves run() with. -/
structure SqliteRunResult where
  lastID : Int
  changes : Nat
deriving DecidableEq

/-- Driver handle of the networked backend: one query operation covering
every statement kind. -/
structure PgDb where
  query : String → List Int → PgResult

/-- Driver handle of the embedded backend: run, get and all as the sqlite
package exposes them. -/
structure SqDb where
  run : String → List Int → SqliteRunResult
  get : String → List Int → Option Row
  all : String → List Int → List Row

/-- Active backend of server.js lines 21 and 54: DATABASE_URL set selects
postgres, unset selects sqlite; exactly one per process lifetime. -/
inductive Backend where
  | pg (db : PgDb)
  | sq (db : SqDb)

/-- Value dbWrapper.run resolves with: the raw driver result of whichever
backend is active — two different shapes. -/
inductive RunResult where
  | pg (r : PgResult)
  | sq (r : SqliteRunResult)
deriving DecidableEq

/-- dbWrapper.run (server.js lines 20-28): postgres passes the statement
through, sqlite rewrites the placeholders first; either driver result is
returned as is. -/
def dbRun : Backend → String → List Int → RunResult
  | .pg db, sql, ps => .pg (db.query sql ps)
  | .sq db, sql, ps => .sq (db.run (rewriteSql sql) ps)

/-- dbWrapper.get (server.js lines 30-38): postgres takes res.rows[0]
(undefined on empty, modelled none); sqlite delegates to the driver get. -/
def dbGet : Backend → String → List Int → Option Row
  | .pg db, sql, ps => (db.query sql ps).rows.head?
  | .sq db, sql, ps => db.get (rewriteSql sql) ps

/-- dbWrapper.all (server.js lines 40-48). -/
def dbAll : Backend → String → List Int → List Row
  | .pg db, sql, ps => (db.query sql ps).rows
  | .sq db, sql, ps => db.all (rewriteSql sql) ps

/-- JSON field names of the value dbWrapper.run resolves with. -/
def runFieldNames : RunResult → List String
  | .pg _ => ["rows", "rowCount"]
  | .sq _ => ["lastID", "changes"]

/-- Column lookup in a row object. -/
def lookupRow : Row → String → Option Int
  | [], _ => none
  | (k, v) :: rest, s => if k = s then some v else lookupRow rest s

/-- Inserted-id extraction the handlers perform at the call site
(server.js lines 187, 192 and 198): DATABASE_URL selects result.rows[0].id,
otherwise result.lastID — an explicit branch on the active backend, outside
the adapter. -/
def extractInsertedId : RunResult → Option Int
  | .pg r => r.rows.head?.bind fun row => lookupRow row "id"
  | .sq r => some r.lastID

/-- Modelled pg driver for INSERT ... RETURNING id over a store whose next
surrogate id is nextId: resolves with one returned row carrying id. -/
def pgInsertDriver (nextId : Int) : PgDb :=
  { query := fun _ _ => { rows := [[("id", nextId)]], rowCount := 1 } }

/-- Modelled sqlite driver over the same logical store: run resolves with
lastID = nextId; get and all are unused by inserts. -/
def sqInsertDriver (nextId : Int) : SqDb :=
  { run := fun _ _ => { lastID := nextId, changes := 1 },
    get := fun _ _ => none,
    all := fun _ _ => [] }

/-- Modelled pg driver holding a fixed logical row set for selects. -/
def pgSelectDriver (rows : List Row) : PgDb :=
  { query := fun _ _ => { rows := rows, rowCount := rows.length } }

/-- Modelled sqlite driver over the same logical row set. -/
def sqSelectDriver (rows : List Row) : SqDb :=
  { run := fun _ _ => { lastID := 0, changes := 0 },
    get := fun _ _ => rows.head?,
    all := fun _ _ => rows }

/-- Insert statement of server.js line 187. -/
def insertClientSql : String :=
  "INSERT INTO clients (name, address, email, phone) VALUES ($1, $2, $3, $4) RETURNING id"

/-- Dashboard payload of server.js line 178. -/
structure Payload where
  kpis : Kpis
  statusSummary : List SC
  monthlyFinancials : List MonthEntry
  upcomingTasks : List Event
deriving DecidableEq

/-- Pure aggregation of server.js lines 170-178 over the three read
results. -/
def dashboardPayload (now : DT) (activeOrders : List Order)
    (measurements : List MRow) (ordersForTasks : List ORow) : Payload :=
  { kpis := kpisOf activeOrders,
    statusSummary := statusSummaryOf activeOrders,
    monthlyFinancials := monthlyFinancialsOf now activeOrders,
    upcomingTasks := sortedTasksOf now ordersForTasks measurements }

/-- HTTP response body of the dashboard handler: either the payload or the
error object of the catch block. -/
inductive DashBody where
  | payload (p : Payload)
  | errorMsg (s : String)
deriving DecidableEq

/-- HTTP response of the dashboard handler. -/
structure DashResp where
  status : Nat
  body : DashBody
deriving DecidableEq

/-- Networked driver handle whose query may reject. -/
structure PgDbE where
  query : String → List Int → Except String PgResult

/-- Embedded driver handle whose operations may reject. -/
structure SqDbE where
  run : String → List Int → Except String SqliteRunResult
  get : String → List Int → Except String (Option Row)
  all : String → List Int → Except String (List Row)

/-- Active backend, rejection-aware. -/
inductive BackendE where
  | pg (db : PgDbE)
  | sq (db : SqDbE)

/-- dbWrapper.run with rejection: the adapter has no try, no catch and one
driver call, so the driver outcome is returned as is (the pg value wrapped
in its shape constructor on success). -/
def dbRunE : BackendE → String → List Int → Except String RunResult
  | .pg db, sql, ps => (db.query sql ps).map RunResult.pg
  | .sq db, sql, ps => (db.run (rewriteSql sql) ps).map RunResult.sq

/-- dbWrapper.get with rejection. -/
def dbGetE : BackendE → String → List Int → Except String (Option Row)
  | .pg db, sql, ps => (db.query sql ps).map fun r => r.rows.head?
  | .sq db, sql, ps => db.get (rewriteSql sql) ps

/-- dbWrapper.all with rejection. -/
def dbAllE : BackendE → String → List Int → Except String (List Row)
  | .pg db, sql, ps => (db.query sql ps).map fun r => r.rows
  | .sq db, sql, ps => db.all (rewriteSql sql) ps

/-- Error body of the catch block of server.js line 181. -/
def dashboardErrorMsg : String := "Error al obtener resumen del dashboard"

/-- GET /api/dashboard-summary handler (server.js lines 163-183): the three
reads are awaited in order inside one try block, so the first rejection
skips everything after it and the catch answers 500 with the fixed error
body; only when all three resolve is the payload computed and sent. -/
def dashboardHandler (now : DT) (r1 : Except String (List Order))
    (r2 : Except String (List MRow)) (r3 : Except String (List ORow)) :
    DashResp :=
  match r1 with
  | .error _ => { status := 500, body := .errorMsg dashboardErrorMsg }
  | .ok activeOrders =>
    match r2 with
    | .error _ => { status := 500, body := .errorMsg dashboardErrorMsg }
    | .ok measurements =>
      match r3 with
      | .error _ => { status := 500, body := .errorMsg dashboardErrorMsg }
      | .ok ordersForTasks =>
        { status := 200,
          body := .payload
            (dashboardPayload now activeOrders measurements ordersForTasks) }

lemma foldl_add_eq_sum (f : Order → ℚ) (l : List Order) (init : ℚ) :
    l.foldl (fun s o => s + f o) init = init + (l.map f).sum := by
  induction l generalizing init with
  | nil => simp
  | cons o l ih => rw [List.foldl_cons, ih, List.map_cons, List.sum_cons]; ring

/-- C2: over the active orders (is_active true and status not Cancelado),
the dashboard KPIs satisfy totalPaid = Σ paidPrice, totalCosts = Σ costPrice,
totalDebt = Σ agreedPrice − totalPaid and netProfit = totalPaid − totalCosts,
a null or missing price contributing 0 to every sum. -/
theorem dashboard_kpis_correct (rows : List Order) :
    (∀ o, o ∈ activeOrdersOf rows ↔
        o ∈ rows ∧ o.is_active = true ∧ o.status ≠ "Cancelado") ∧
    (kpisOf (activeOrdersOf rows)).totalPaid
        = ((activeOrdersOf rows).map fun o => o.paid_price.getD 0).sum ∧
    (kpisOf (activeOrdersOf rows)).totalCosts
        = ((activeOrdersOf rows).map fun o => o.cost_price.getD 0).sum ∧
    (kpisOf (activeOrdersOf rows)).totalDebt
        = ((activeOrdersOf rows).map fun o => o.agreed_price.getD 0).sum
          - (kpisOf (activeOrdersOf rows)).totalPaid ∧
    (kpisOf (activeOrdersOf rows)).netProfit
        = (kpisOf (activeOrdersOf rows)).totalPaid
          - (kpisOf (activeOrdersOf rows)).totalCosts := by
  refine ⟨fun o => ?_, ?_, ?_, ?_, ?_⟩
  · simp [activeOrdersOf, List.mem_filter, and_assoc]
  · simp [kpisOf, jsOr, foldl_add_eq_sum]
  · simp [kpisOf, jsOr, foldl_add_eq_sum]
  · simp [kpisOf, jsOr, foldl_add_eq_sum]
  · simp [kpisOf, jsOr, foldl_add_eq_sum]

lemma bump_keys (acc : List (String × Nat)) (s : String) :
    (bump acc s).map Prod.fst =
      if s ∈ acc.map Prod.fst then acc.map Prod.fst
      else acc.map Prod.fst ++ [s] := by
  induction acc with
  | nil => simp [bump]
  | cons p rest ih =>
    obtain ⟨t, c⟩ := p
    by_cases h : t = s
    · subst h
      simp [bump]
    · simp only [bump, if_neg h, List.map_cons]
      rw [ih]
      by_cases hs : s ∈ rest.map Prod.fst
      · simp [hs, Ne.symm h]
      · simp [hs, Ne.symm h]

lemma bump_sum (acc : List (String × Nat)) (s : String) :
    ((bump acc s).map Prod.snd).sum = ((acc.map Prod.snd).sum) + 1 := by
  induction acc with
  | nil => simp [bump]
  | cons p rest ih =>
    obtain ⟨t, c⟩ := p
    by_cases h : t = s
    · subst h
      have hb : bump ((t, c) :: rest) t = (t, c + 1) :: rest := by simp [bump]
      rw [hb]
      simp only [List.map_cons, List.sum_cons]
      omega
    · simp only [bump, if_neg h, List.map_cons, List.sum_cons, ih]
      ring

lemma lookupC_bump_self (acc : List (String × Nat)) (s : String) :
    lookupC (bump acc s) s = some ((lookupC acc s).getD 0 + 1) := by
  induction acc with
  | nil => simp [bump, lookupC]
  | cons p rest ih =>
    obtain ⟨t, c⟩ := p
    by_cases h : t = s
    · subst h
      simp [bump, lookupC]
    · simp [bump, lookupC, h, ih]

lemma lookupC_bump_other (acc : List (String × Nat)) (s u : String)
    (h : u ≠ s) : lookupC (bump acc s) u = lookupC acc u := by
  induction acc with
  | nil => simp [bump, lookupC, Ne.symm h]
  | cons p rest ih =>
    obtain ⟨t, c⟩ := p
    by_cases ht : t = s
    · subst ht
      simp [bump, lookupC, Ne.symm h]
    · by_cases hu : t = u
      · subst hu
        simp [bump, lookupC, ht]
      · simp [bump, lookupC, ht, hu, ih]

lemma statusCounts_foldl_sum (sts : List String) :
    ∀ acc, ((sts.foldl bump acc).map Prod.snd).sum
      = (acc.map Prod.snd).sum + sts.length := by
  induction sts with
  | nil => intro acc; simp
  | cons s r ih =>
    intro acc
    simp only [List.foldl_cons, List.length_cons]
    rw [ih (bump acc s), bump_sum]
    omega

lemma lookupC_foldl (sts : List String) :
    ∀ acc s, lookupC (sts.foldl bump acc) s =
      if s ∈ sts then some ((lookupC acc s).getD 0 + sts.count s)
      else lookupC acc s := by
  induction sts with
  | nil => intro acc s; simp
  | cons s' r ih =>
    intro acc s
    simp only [List.foldl_cons]
    rw [ih (bump acc s')]
    by_cases h : s = s'
    · subst h
      rw [lookupC_bump_self]
      by_cases hr : s ∈ r
      · rw [if_pos hr, if_pos (List.mem_cons_self s r), List.count_cons_self]
        simp only [Option.getD_some, Option.some.injEq]
        omega
      · rw [if_neg hr, if_pos (List.mem_cons_self s r), List.count_cons_self]
        have hc : r.count s = 0 := by
          exact Nat.eq_zero_of_not_pos fun hp => hr (List.count_pos_iff.mp hp)
        rw [hc]
    · rw [lookupC_bump_other acc s' s h]
      have hm : (s ∈ s' :: r) ↔ s ∈ r := by
        simp [List.mem_cons, h]
      have hcnt : (s' :: r).count s = r.count s := List.count_cons_of_ne h r
      by_cases hr : s ∈ r
      · rw [if_pos hr, if_pos (hm.mpr hr), hcnt]
      · rw [if_neg hr, if_neg (fun hh => hr (hm.mp hh))]

lemma statusCounts_keys (sts : List String) :
    ∀ acc, (sts.foldl bump acc).map Prod.fst
      = acc.map Prod.fst ++ firstSeen (dropKeys (acc.map Prod.fst) sts) := by
  induction sts with
  | nil => intro acc; simp [dropKeys, firstSeen]
  | cons s r ih =>
    intro acc
    simp only [List.foldl_cons]
    rw [ih (bump acc s), bump_keys]
    by_cases h : s ∈ acc.map Prod.fst
    · rw [if_pos h]
      have hd : dropKeys (acc.map Prod.fst) (s :: r)
          = dropKeys (acc.map Prod.fst) r := by
        simp [dropKeys, h]
      rw [hd]
    · rw [if_neg h]
      have h1 : dropKeys (acc.map Prod.fst) (s :: r)
          = s :: dropKeys (acc.map Prod.fst) r := by
        simp [dropKeys, h]
      have h2 : (dropKeys (acc.map Prod.fst) r).filter (fun t => !(t == s))
          = dropKeys (acc.map Prod.fst ++ [s]) r := by
        simp only [dropKeys, List.filter_filter]
        apply List.filter_congr
        intro t _
        by_cases h3 : t ∈ acc.map Prod.fst <;> by_cases h4 : t = s <;>
          simp [h3, h4, List.mem_append]
      rw [h1]
      simp only [firstSeen, h2]
      rw [List.append_assoc, List.singleton_append]

lemma mem_firstSeen : ∀ (l : List String) (u : String), u ∈ firstSeen l ↔ u ∈ l := by
  intro l
  induction l using firstSeen.induct with
  | case1 => intro u; simp [firstSeen]
  | case2 s rest ih =>
    intro u
    simp only [firstSeen, List.mem_cons, ih]
    by_cases h : u = s
    · simp [h]
    · simp [h, List.mem_filter]

lemma firstSeen_nodup : ∀ l : List String, (firstSeen l).Nodup := by
  intro l
  induction l using firstSeen.induct with
  | case1 => simp [firstSeen]
  | case2 s rest ih =>
    simp only [firstSeen, List.nodup_cons]
    refine ⟨?_, ih⟩
    rw [mem_firstSeen]
    simp [List.mem_filter]

lemma nodup_pairwise_posIn : ∀ l : List String, l.Nodup →
    l.Pairwise fun s t => posIn l s < posIn l t := by
  intro l
  induction l with
  | nil => intro _; simp
  | cons x r ih =>
    intro h
    rw [List.nodup_cons] at h
    obtain ⟨hx, hr⟩ := h
    rw [List.pairwise_cons]
    constructor
    · intro t ht
      have htx : x ≠ t := fun e => hx (e ▸ ht)
      simp [posIn, htx]
    · refine (ih hr).imp_of_mem ?_
      intro a b ha hb hab
      have hxa : x ≠ a := fun e => hx (e ▸ ha)
      have hxb : x ≠ b := fun e => hx (e ▸ hb)
      simpa [posIn, hxa, hxb] using hab

lemma mem_iff_lookupC : ∀ acc : List (String × Nat), (acc.map Prod.fst).Nodup →
    ∀ (s : String) (c : Nat), ((s, c) ∈ acc ↔ lookupC acc s = some c) := by
  intro acc
  induction acc with
  | nil => intro _ s c; simp [lookupC]
  | cons p rest ih =>
    intro hnd s c
    obtain ⟨t, c'⟩ := p
    rw [List.map_cons, List.nodup_cons] at hnd
    obtain ⟨htn, hrest⟩ := hnd
    by_cases h : t = s
    · subst h
      have hl : lookupC ((t, c') :: rest) t = some c' := by simp [lookupC]
      rw [hl, List.mem_cons]
      constructor
      · rintro (he | hm)
        · rw [Option.some.injEq]
          exact ((Prod.mk.injEq _ _ _ _).mp he).2.symm
        · exact absurd (List.mem_map_of_mem Prod.fst hm) htn
      · intro he
        rw [Option.some.injEq] at he
        left
        rw [he]
    · simp only [lookupC, if_neg h, List.mem_cons]
      rw [← ih hrest s c]
      constructor
      · rintro (he | hm)
        · exact absurd (congrArg Prod.fst he).symm h
        · exact hm
      · intro hm
        exact Or.inr hm

lemma orderedInsert_pairwise_ties (P : SC → SC → Prop) (x : SC) :
    ∀ s : List SC, s.Pairwise (fun a b => a.count = b.count → P a b) →
      (∀ y ∈ s, x.count = y.count → P x y) →
      (List.orderedInsert scLE x s).Pairwise
        (fun a b => a.count = b.count → P a b) := by
  intro s
  induction s with
  | nil => intro _ _; simp
  | cons y ys ih =>
    intro hp hx
    rw [List.pairwise_cons] at hp
    obtain ⟨hy, hys⟩ := hp
    by_cases h : scLE x y
    · simp only [List.orderedInsert, if_pos h]
      rw [List.pairwise_cons]
      exact ⟨hx, List.pairwise_cons.mpr ⟨hy, hys⟩⟩
    · simp only [List.orderedInsert, if_neg h]
      rw [List.pairwise_cons]
      constructor
      · intro z hz
        rcases (List.mem_orderedInsert scLE).mp hz with hzx | hzy
        · subst hzx
          intro he
          exact absurd (le_of_eq he) (by simpa [scLE] using h)
        · exact hy z hzy
      · exact ih hys fun z hz => hx z (List.mem_cons_of_mem y hz)

lemma insertionSort_pairwise_ties (P : SC → SC → Prop) :
    ∀ l : List SC, l.Pairwise P →
      (List.insertionSort scLE l).Pairwise
        (fun a b => a.count = b.count → P a b) := by
  intro l
  induction l with
  | nil => intro _; simp
  | cons x l ih =>
    intro hp
    rw [List.pairwise_cons] at hp
    obtain ⟨hx, hl⟩ := hp
    simp only [List.insertionSort]
    refine orderedInsert_pairwise_ties P x _ (ih hl) ?_
    intro y hy _
    exact hx y ((List.perm_insertionSort scLE l).mem_iff.mp hy)

lemma statusCounts_keys_eq (sts : List String) :
    (statusCounts sts).map Prod.fst = firstSeen sts := by
  have h := statusCounts_keys sts []
  simpa [statusCounts, dropKeys] using h

lemma lookupC_statusCounts (sts : List String) (s : String) :
    lookupC (statusCounts sts) s =
      if s ∈ sts then some (sts.count s) else none := by
  have h := lookupC_foldl sts [] s
  simpa [statusCounts, lookupC] using h

lemma mem_statusCounts (sts : List String) (s : String) (c : Nat) :
    (s, c) ∈ statusCounts sts ↔ s ∈ sts ∧ c = sts.count s := by
  have hnd : ((statusCounts sts).map Prod.fst).Nodup := by
    rw [statusCounts_keys_eq]
    exact firstSeen_nodup sts
  rw [mem_iff_lookupC (statusCounts sts) hnd s c, lookupC_statusCounts]
  by_cases h : s ∈ sts
  · simp [h, eq_comm]
  · simp [h]

/-- C3: the dashboard status histogram contains exactly the statuses that
occur among the active orders, each with its positive occurrence count; the
counts sum to the number of active orders; the sequence is sorted by count
descending; and ties keep the order in which the statuses were first
encountered while scanning the orders. -/
theorem dashboard_status_summary_correct (rows : List Order) :
    (∀ sc : SC, sc ∈ statusSummaryOf (activeOrdersOf rows) ↔
        sc.status ∈ (activeOrdersOf rows).map Order.status ∧
        sc.count = ((activeOrdersOf rows).map Order.status).count sc.status ∧
        0 < sc.count) ∧
    ((statusSummaryOf (activeOrdersOf rows)).map SC.count).sum
        = (activeOrdersOf rows).length ∧
    (statusSummaryOf (activeOrdersOf rows)).Pairwise
        (fun a b => b.count ≤ a.count) ∧
    (statusSummaryOf (activeOrdersOf rows)).Pairwise (fun a b =>
        a.count = b.count →
          posIn (firstSeen ((activeOrdersOf rows).map Order.status)) a.status
            < posIn (firstSeen ((activeOrdersOf rows).map Order.status))
                b.status) := by
  set sts := (activeOrdersOf rows).map Order.status with hsts
  have hperm : (statusSummaryOf (activeOrdersOf rows)).Perm
      ((statusCounts sts).map fun p => SC.mk p.1 p.2) :=
    List.perm_insertionSort scLE _
  have hmemSC : ∀ sc : SC,
      sc ∈ (statusCounts sts).map (fun p => SC.mk p.1 p.2) ↔
        (sc.status, sc.count) ∈ statusCounts sts := by
    intro sc
    rw [List.mem_map]
    constructor
    · rintro ⟨⟨a, b⟩, hm, he⟩
      have h1 : sc.status = a := by rw [← he]
      have h2 : sc.count = b := by rw [← he]
      rw [h1, h2]
      exact hm
    · intro hm
      exact ⟨(sc.status, sc.count), hm, rfl⟩
  refine ⟨?_, ?_, ?_, ?_⟩
  · intro sc
    rw [hperm.mem_iff, hmemSC, mem_statusCounts]
    constructor
    · rintro ⟨h1, h2⟩
      exact ⟨h1, h2, h2 ▸ List.count_pos_iff.mpr h1⟩
    · rintro ⟨h1, h2, _⟩
      exact ⟨h1, h2⟩
  · have h1 : ((statusSummaryOf (activeOrdersOf rows)).map SC.count).sum
        = (((statusCounts sts).map fun p => SC.mk p.1 p.2).map SC.count).sum :=
      (hperm.map SC.count).sum_eq
    rw [h1, List.map_map]
    have h2 : (SC.count ∘ fun p : String × Nat => SC.mk p.1 p.2) = Prod.snd := by
      funext p
      rfl
    rw [h2]
    have h3 := statusCounts_foldl_sum sts []
    simp only [statusCounts]
    simp only [List.map_nil, List.sum_nil, Nat.zero_add] at h3
    rw [h3, hsts, List.length_map]
  · exact List.sorted_insertionSort scLE _
  · apply insertionSort_pairwise_ties
    have hfs : (firstSeen sts).Pairwise
        (fun s t => posIn (firstSeen sts) s < posIn (firstSeen sts) t) :=
      nodup_pairwise_posIn (firstSeen sts) (firstSeen_nodup sts)
    have hkeys : ((statusCounts sts).map Prod.fst).Pairwise
        (fun s t => posIn (firstSeen sts) s < posIn (firstSeen sts) t) := by
      rw [statusCounts_keys_eq]
      exact hfs
    rw [List.pairwise_map] at hkeys
    rw [List.pairwise_map]
    exact hkeys

lemma jsum_eq_num (f : Order → Price) (l : List Order) :
    jsum f l = .num ((l.map fun o => (f o).getD 0).sum) := by
  suffices h : ∀ q : ℚ, l.foldl (fun s o => JNum.add s (toJNum (f o))) (.num q)
      = .num (q + (l.map fun o => (f o).getD 0).sum) by
    simpa [jsum] using h 0
  induction l with
  | nil => intro q; simp
  | cons o l ih =>
    intro q
    rw [List.foldl_cons]
    have hstep : JNum.add (.num q) (toJNum (f o)) = .num (q + (f o).getD 0) := by
      cases hf : f o <;> simp [toJNum, JNum.add, hf]
    rw [hstep, ih, List.map_cons, List.sum_cons]
    exact congrArg JNum.num (by ring)

lemma monthlyFinancialsOf_get (now : DT) (ao : List Order) (j : Nat)
    (hj : j < (monthlyFinancialsOf now ao).length) :
    (monthlyFinancialsOf now ao).get ⟨j, hj⟩ = monthEntry now ao (5 - (j : Int)) := by
  have hj6 : j < 6 := hj
  interval_cases j <;> norm_num [monthlyFinancialsOf]

/-- C4: monthlyFinancials always has exactly 6 entries, one per calendar
month, consecutive and oldest first, ending with the current month (entry j
is the calendar month with absolute index 12·year + month − 5 + j, distinct
months for distinct entries, the last being the current one); an order is
summed into exactly the entries whose calendar year and month equal those of
its createdAt — not a rolling 30-day window — and each entry carries the
agreed, paid and cost sums over the orders bucketed in its month. -/
theorem dashboard_monthly_financials_correct (now : DT) (rows : List Order) :
    (monthlyFinancialsOf now (activeOrdersOf rows)).length = 6 ∧
    (∀ j (hj : j < (monthlyFinancialsOf now (activeOrdersOf rows)).length),
      12 * ((monthlyFinancialsOf now (activeOrdersOf rows)).get ⟨j, hj⟩).year
          + ((monthlyFinancialsOf now (activeOrdersOf rows)).get ⟨j, hj⟩).month
        = 12 * now.year + now.month - 5 + j) ∧
    (∀ j k (hj : j < (monthlyFinancialsOf now (activeOrdersOf rows)).length)
        (hk : k < (monthlyFinancialsOf now (activeOrdersOf rows)).length),
      ((monthlyFinancialsOf now (activeOrdersOf rows)).get ⟨j, hj⟩).year
          = ((monthlyFinancialsOf now (activeOrdersOf rows)).get ⟨k, hk⟩).year →
      ((monthlyFinancialsOf now (activeOrdersOf rows)).get ⟨j, hj⟩).month
          = ((monthlyFinancialsOf now (activeOrdersOf rows)).get ⟨k, hk⟩).month →
      j = k) ∧
    (∀ j (hj : j < (monthlyFinancialsOf now (activeOrdersOf rows)).length),
      ((monthlyFinancialsOf now (activeOrdersOf rows)).get ⟨j, hj⟩).agreed
          = .num (((activeOrdersOf rows).filter fun o =>
              o.createdAt.year
                  == ((monthlyFinancialsOf now (activeOrdersOf rows)).get ⟨j, hj⟩).year
                && o.createdAt.month
                  == ((monthlyFinancialsOf now (activeOrdersOf rows)).get ⟨j, hj⟩).month).map
                fun o => o.agreed_price.getD 0).sum ∧
      ((monthlyFinancialsOf now (activeOrdersOf rows)).get ⟨j, hj⟩).paid
          = .num (((activeOrdersOf rows).filter fun o =>
              o.createdAt.year
                  == ((monthlyFinancialsOf now (activeOrdersOf rows)).get ⟨j, hj⟩).year
                && o.createdAt.month
                  == ((monthlyFinancialsOf now (activeOrdersOf rows)).get ⟨j, hj⟩).month).map
                fun o => o.paid_price.getD 0).sum ∧
      ((monthlyFinancialsOf now (activeOrdersOf rows)).get ⟨j, hj⟩).cost
          = .num (((activeOrdersOf rows).filter fun o =>
              o.createdAt.year
                  == ((monthlyFinancialsOf now (activeOrdersOf rows)).get ⟨j, hj⟩).year
                && o.createdAt.month
                  == ((monthlyFinancialsOf now (activeOrdersOf rows)).get ⟨j, hj⟩).month).map
                fun o => o.cost_price.getD 0).sum) ∧
    (0 ≤ now.month → now.month < 12 →
      ∀ (h5 : 5 < (monthlyFinancialsOf now (activeOrdersOf rows)).length),
        ((monthlyFinancialsOf now (activeOrdersOf rows)).get ⟨5, h5⟩).year = now.year ∧
        ((monthlyFinancialsOf now (activeOrdersOf rows)).get ⟨5, h5⟩).month = now.month) := by
  refine ⟨rfl, ?_, ?_, ?_, ?_⟩
  · intro j hj
    rw [monthlyFinancialsOf_get]
    simp only [monthEntry, bucketOf]
    omega
  · intro j k hj hk h1 h2
    rw [monthlyFinancialsOf_get, monthlyFinancialsOf_get] at h1 h2
    simp only [monthEntry, bucketOf] at h1 h2
    have hj6 : j < 6 := hj
    have hk6 : k < 6 := hk
    omega
  · intro j hj
    rw [monthlyFinancialsOf_get]
    refine ⟨?_, ?_, ?_⟩ <;>
      simp [monthEntry, jsum_eq_num, bucketOrders]
  · intro hm0 hm1 h5
    rw [monthlyFinancialsOf_get]
    simp only [monthEntry, bucketOf]
    constructor
    · show (12 * now.year + now.month - (5 - ((5 : Nat) : Int))) / 12 = now.year
      omega
    · show (12 * now.year + now.month - (5 - ((5 : Nat) : Int))) % 12 = now.month
      omega

lemma mem_upcomingOf_date (today : DT) (oft : List ORow) (ms : List MRow)
    (e : Event) (he : e ∈ upcomingOf today oft ms) : today.t ≤ e.date.t := by
  rcases List.mem_append.mp he with h3 | h3
  · obtain ⟨o, _, ho⟩ := List.mem_filterMap.mp h3
    cases hd : o.due_datetime with
    | none => rw [hd] at ho; exact Option.noConfusion ho
    | some d =>
      rw [hd] at ho
      dsimp only at ho
      by_cases ht : today.t ≤ d.t
      · rw [if_pos ht] at ho
        rw [← Option.some.inj ho]
        exact ht
      · rw [if_neg ht] at ho
        exact Option.noConfusion ho
  · obtain ⟨m, _, hm⟩ := List.mem_filterMap.mp h3
    cases hd : m.task_datetime with
    | none => rw [hd] at hm; exact Option.noConfusion hm
    | some d =>
      rw [hd] at hm
      dsimp only at hm
      by_cases ht : today.t ≤ d.t
      · rw [if_pos ht] at hm
        rw [← Option.some.inj hm]
        exact ht
      · rw [if_neg ht] at hm
        exact Option.noConfusion hm

/-- C5: the upcoming-events feed excludes every event dated strictly before
the current moment, has at most 5 entries, and is non-decreasing by event
date. -/
theorem dashboard_upcoming_tasks_correct (today : DT) (oft : List ORow)
    (ms : List MRow) :
    (∀ e ∈ sortedTasksOf today oft ms, today.t ≤ e.date.t) ∧
    (sortedTasksOf today oft ms).length ≤ 5 ∧
    (sortedTasksOf today oft ms).Pairwise (fun a b => a.date.t ≤ b.date.t) := by
  refine ⟨?_, ?_, ?_⟩
  · intro e he
    have h1 : e ∈ List.insertionSort evLE (upcomingOf today oft ms) :=
      (List.take_sublist 5 _).subset he
    exact mem_upcomingOf_date today oft ms e
      ((List.perm_insertionSort evLE _).mem_iff.mp h1)
  · exact List.length_take_le 5 _
  · exact List.Pairwise.sublist (List.take_sublist 5 _)
      (List.sorted_insertionSort evLE _)

/-- C6: events built from order rows carry type Entrega (Delivery) with the
rocket icon and events built from measurement tasks carry type Medición
(Measurement) with the build icon; every row with a date at or after the
current moment yields its event; and on the worked example with one order
due two days out and one task due one day out the feed is exactly
[Medición at day+1, Entrega at day+2]. -/
theorem dashboard_event_types_correct :
    (∀ (today : DT) (l : List ORow), ∀ e ∈ orderEvents today l,
        e.type = "Entrega" ∧ e.icon = "rocket-outline") ∧
    (∀ (today : DT) (l : List MRow), ∀ e ∈ measurementEvents today l,
        e.type = "Medición" ∧ e.icon = "build-outline") ∧
    (∀ (today : DT) (l : List ORow) (o : ORow) (d : DT), o ∈ l →
        o.due_datetime = some d → today.t ≤ d.t →
        ({ id := o.id, type := "Entrega", icon := "rocket-outline", date := d,
           clientName := o.clientName, clientId := o.client_id } : Event)
          ∈ orderEvents today l) ∧
    (∀ (today : DT) (l : List MRow) (m : MRow) (d : DT), m ∈ l →
        m.task_datetime = some d → today.t ≤ d.t →
        ({ id := m.id, type := "Medición", icon := "build-outline", date := d,
           clientName := m.clientName, clientId := m.client_id } : Event)
          ∈ measurementEvents today l) ∧
    sortedTasksOf ⟨2024, 7, 0⟩ [exOrderRow] [exTaskRow] =
      [{ id := 2, type := "Medición", icon := "build-outline",
         date := ⟨2024, 7, 1⟩, clientName := "Beta", clientId := 11 },
       { id := 1, type := "Entrega", icon := "rocket-outline",
         date := ⟨2024, 7, 2⟩, clientName := "Acme", clientId := 10 }] := by
  refine ⟨?_, ?_, ?_, ?_, ?_⟩
  · intro today l e he
    obtain ⟨o, _, ho⟩ := List.mem_filterMap.mp he
    cases hd : o.due_datetime with
    | none => rw [hd] at ho; exact Option.noConfusion ho
    | some d =>
      rw [hd] at ho
      dsimp only at ho
      by_cases ht : today.t ≤ d.t
      · rw [if_pos ht] at ho
        rw [← Option.some.inj ho]
        exact ⟨rfl, rfl⟩
      · rw [if_neg ht] at ho
        exact Option.noConfusion ho
  · intro today l e he
    obtain ⟨m, _, hm⟩ := List.mem_filterMap.mp he
    cases hd : m.task_datetime with
    | none => rw [hd] at hm; exact Option.noConfusion hm
    | some d =>
      rw [hd] at hm
      dsimp only at hm
      by_cases ht : today.t ≤ d.t
      · rw [if_pos ht] at hm
        rw [← Option.some.inj hm]
        exact ⟨rfl, rfl⟩
      · rw [if_neg ht] at hm
        exact Option.noConfusion hm
  · intro today l o d hol hd ht
    refine List.mem_filterMap.mpr ⟨o, hol, ?_⟩
    rw [hd]
    dsimp only
    rw [if_pos ht]
  · intro today l m d hml hd ht
    refine List.mem_filterMap.mpr ⟨m, hml, ?_⟩
    rw [hd]
    dsimp only
    rw [if_pos ht]
  · rfl

/-- Witness for C4: the month-index formula, bucket uniqueness and the
current-month ending, instantiated at a concrete clock, discharging the
index-bound and month-range hypotheses. -/
theorem dashboard_monthly_financials_correct_witness :
    (12 * ((monthlyFinancialsOf ⟨2024, 7, 0⟩ (activeOrdersOf [])).get
          ⟨0, by decide⟩).year
        + ((monthlyFinancialsOf ⟨2024, 7, 0⟩ (activeOrdersOf [])).get
          ⟨0, by decide⟩).month
      = 12 * 2024 + 7 - 5 + 0) ∧
    ((monthlyFinancialsOf ⟨2024, 7, 0⟩ (activeOrdersOf [])).get
        ⟨5, by decide⟩).year = 2024 ∧
    ((monthlyFinancialsOf ⟨2024, 7, 0⟩ (activeOrdersOf [])).get
        ⟨5, by decide⟩).month = 7 :=
  ⟨(dashboard_monthly_financials_correct ⟨2024, 7, 0⟩ []).2.1 0 (by decide),
   ((dashboard_monthly_financials_correct ⟨2024, 7, 0⟩ []).2.2.2.2
      (by decide) (by decide) (by decide)).1,
   ((dashboard_monthly_financials_correct ⟨2024, 7, 0⟩ []).2.2.2.2
      (by decide) (by decide) (by decide)).2⟩

/-- Counterexample to C9: with one active order in the current month whose
agreed_price is null, the agreed sum of the current-month entry is the JS
number 0 — the null is coerced to +0 by the + operator, giving exactly the
nulls-as-0 sum — and is not NaN, contrary to the claim. -/
theorem monthly_null_price_counterexample :
    ((monthlyFinancialsOf ⟨2024, 7, 20⟩ (activeOrdersOf [nullPriceOrder])).get
        ⟨5, by decide⟩).agreed = JNum.num 0 ∧
    ((monthlyFinancialsOf ⟨2024, 7, 20⟩ (activeOrdersOf [nullPriceOrder])).get
        ⟨5, by decide⟩).agreed ≠ JNum.nan := by
  have h : ((monthlyFinancialsOf ⟨2024, 7, 20⟩
      (activeOrdersOf [nullPriceOrder])).get ⟨5, by decide⟩).agreed
        = JNum.num 0 := by
    rw [monthlyFinancialsOf_get]
    norm_num [monthEntry, jsum_eq_num, bucketOrders, bucketOf, activeOrdersOf,
      nullPriceOrder, List.filter_cons, List.filter_nil,
      show ("Pendiente" : String) ≠ "Cancelado" from by decide]
  refine ⟨h, ?_⟩
  rw [h]
  exact fun hh => JNum.noConfusion hh

/-- C9 amended: the monthly sums of line 175 do coerce null prices to 0 —
through the JS ToNumber coercion of the + operand, not an explicit guard —
so every entry carries exactly the nulls-as-0 sums over its bucket orders
and is never NaN (NaN would require an undefined operand, which result rows
never produce). -/
theorem monthly_sums_null_as_zero (now : DT) (rows : List Order) (j : Nat)
    (hj : j < (monthlyFinancialsOf now (activeOrdersOf rows)).length) :
    ((monthlyFinancialsOf now (activeOrdersOf rows)).get ⟨j, hj⟩).agreed
        = JNum.num (((bucketOrders now (5 - (j : Int)) (activeOrdersOf rows)).map
            fun o => o.agreed_price.getD 0).sum) ∧
    ((monthlyFinancialsOf now (activeOrdersOf rows)).get ⟨j, hj⟩).paid
        = JNum.num (((bucketOrders now (5 - (j : Int)) (activeOrdersOf rows)).map
            fun o => o.paid_price.getD 0).sum) ∧
    ((monthlyFinancialsOf now (activeOrdersOf rows)).get ⟨j, hj⟩).cost
        = JNum.num (((bucketOrders now (5 - (j : Int)) (activeOrdersOf rows)).map
            fun o => o.cost_price.getD 0).sum) ∧
    ((monthlyFinancialsOf now (activeOrdersOf rows)).get ⟨j, hj⟩).agreed
        ≠ JNum.nan ∧
    ((monthlyFinancialsOf now (activeOrdersOf rows)).get ⟨j, hj⟩).paid
        ≠ JNum.nan ∧
    ((monthlyFinancialsOf now (activeOrdersOf rows)).get ⟨j, hj⟩).cost
        ≠ JNum.nan := by
  rw [monthlyFinancialsOf_get]
  simp [monthEntry, jsum_eq_num]

/-- Witness for the amended C9 theorem at a concrete clock, order set and
entry index, discharging the index-bound hypothesis. -/
theorem monthly_sums_null_as_zero_witness :
    ((monthlyFinancialsOf ⟨2024, 7, 20⟩ (activeOrdersOf [nullPriceOrder])).get
        ⟨5, by decide⟩).paid ≠ JNum.nan :=
  (monthly_sums_null_as_zero ⟨2024, 7, 20⟩ [nullPriceOrder] 5 (by decide)).2.2.2.2.1

/-- C8: the login handler responds 200 with success true exactly when the
submitted plaintext password equals the single configured secret, and in
every other case responds 401 with success false; no other status is
possible, and no session state exists to be created. -/
theorem login_handler_correct (adminPassword : String)
    (password : Option String) :
    ((loginHandler adminPassword password).status = 200 ∧
        (loginHandler adminPassword password).success = true
      ↔ password = some adminPassword) ∧
    (password ≠ some adminPassword →
      (loginHandler adminPassword password).status = 401 ∧
        (loginHandler adminPassword password).success = false) ∧
    ((loginHandler adminPassword password).status = 200 ∨
      (loginHandler adminPassword password).status = 401) := by
  by_cases h : password = some adminPassword <;>
    simp [loginHandler, h]

/-- Witness for C8 at the default secret and a wrong password, discharging
the mismatch hypothesis. -/
theorem login_handler_correct_witness :
    (loginHandler defaultAdminPassword (some "wrong")).status = 401 ∧
    (loginHandler defaultAdminPassword (some "wrong")).success = false :=
  (login_handler_correct defaultAdminPassword (some "wrong")).2.1 (by decide)

lemma dropWhile_length_le (p : Char → Bool) (l : List Char) :
    (l.dropWhile p).length ≤ l.length := by
  induction l with
  | nil => simp
  | cons c rest ih =>
    rw [List.dropWhile_cons]
    by_cases h : p c
    · simp only [if_pos h]
      exact le_trans ih (Nat.le_succ _)
    · simp [if_neg h]

lemma rewriteAux_eq_of_le (f : Nat) : ∀ (l : List Char), l.length ≤ f →
    rewriteAux f l = rewritePlaceholders l := by
  induction f using Nat.strong_induction_on with
  | _ f ih =>
    intro l hl
    match f, l with
    | 0, l =>
      have : l = [] := List.length_eq_zero.mp (Nat.le_zero.mp hl)
      subst this
      rfl
    | f + 1, [] => rfl
    | f + 1, c :: rest =>
      show rewriteAux (f + 1) (c :: rest) = rewriteAux (rest.length + 1) (c :: rest)
      simp only [rewriteAux]
      have h1 : rest.length ≤ f := by
        simpa [Nat.succ_le_succ_iff] using hl
      have e1 : rewriteAux f rest = rewriteAux rest.length rest := by
        rw [ih f (Nat.lt_succ_self f) rest h1,
          ih rest.length (Nat.lt_succ_of_le h1) rest le_rfl]
      have e2 : rewriteAux f (rest.dropWhile Char.isDigit)
          = rewriteAux rest.length (rest.dropWhile Char.isDigit) := by
        rw [ih f (Nat.lt_succ_self f) _ (le_trans (dropWhile_length_le _ _) h1),
          ih rest.length (Nat.lt_succ_of_le h1) _ (dropWhile_length_le _ _)]
      rw [e1, e2]

lemma rewritePlaceholders_cons (c : Char) (rest : List Char) :
    rewritePlaceholders (c :: rest) =
      if c = '$' then
        if (rest.takeWhile Char.isDigit).isEmpty then
          '$' :: rewritePlaceholders rest
        else '?' :: rewritePlaceholders (rest.dropWhile Char.isDigit)
      else c :: rewritePlaceholders rest := by
  show rewriteAux (rest.length + 1) (c :: rest) = _
  simp only [rewriteAux]
  rw [rewriteAux_eq_of_le rest.length rest le_rfl,
    rewriteAux_eq_of_le rest.length _ (dropWhile_length_le _ _)]

lemma rewritePlaceholders_nodollar : ∀ l : List Char, (∀ c ∈ l, c ≠ '$') →
    rewritePlaceholders l = l := by
  intro l
  induction l with
  | nil => intro _; rfl
  | cons c rest ih =>
    intro h
    rw [rewritePlaceholders_cons, if_neg (h c (List.mem_cons_self c rest)),
      ih fun x hx => h x (List.mem_cons_of_mem c hx)]

lemma takeWhile_append_nondigit (z : List Char)
    (hz : ∀ c, z.head? = some c → c.isDigit = false) :
    ∀ xs : List Char,
      (xs ++ z).takeWhile Char.isDigit = xs.takeWhile Char.isDigit ∧
      (xs ++ z).dropWhile Char.isDigit = xs.dropWhile Char.isDigit ++ z := by
  intro xs
  induction xs with
  | nil =>
    simp only [List.nil_append, List.takeWhile_nil, List.dropWhile_nil]
    cases z with
    | nil => exact ⟨rfl, rfl⟩
    | cons c zz =>
      have hc := hz c rfl
      constructor
      · rw [List.takeWhile_cons, hc]
        rfl
      · rw [List.dropWhile_cons, hc]
        rfl
  | cons x xs ih =>
    by_cases h : x.isDigit
    · constructor
      · simp [List.takeWhile_cons, h, ih.1]
      · simp [List.dropWhile_cons, h, ih.2]
    · have hb : x.isDigit = false := Bool.eq_false_iff.mpr h
      constructor
      · simp [List.takeWhile_cons, hb]
      · simp [List.dropWhile_cons, hb]

lemma takeWhile_all_digits (m : List Char) (hm : ∀ c ∈ m, c.isDigit) :
    m.takeWhile Char.isDigit = m ∧ m.dropWhile Char.isDigit = [] := by
  induction m with
  | nil => exact ⟨rfl, rfl⟩
  | cons c mm ih =>
    have hc := hm c (List.mem_cons_self c mm)
    have ihh := ih fun x hx => hm x (List.mem_cons_of_mem c hx)
    constructor
    · simp [List.takeWhile_cons, hc, ihh.1]
    · simp [List.dropWhile_cons, hc, ihh.2]

lemma rewrite_append_aux (m b : List Char) (hm1 : m ≠ [])
    (hm2 : ∀ c ∈ m, c.isDigit)
    (hb : ∀ c, b.head? = some c → c.isDigit = false) :
    ∀ (f : Nat) (a : List Char), a.length ≤ f →
      rewritePlaceholders (a ++ ('$' :: (m ++ b)))
        = rewritePlaceholders a ++ '?' :: rewritePlaceholders b := by
  have hsplit : (m ++ b).takeWhile Char.isDigit = m ∧
      (m ++ b).dropWhile Char.isDigit = b := by
    have h1 := takeWhile_append_nondigit b hb m
    have h2 := takeWhile_all_digits m hm2
    rw [h1.1, h1.2, h2.1, h2.2]
    exact ⟨rfl, rfl⟩
  have hmne : m.isEmpty = false := by
    cases m with
    | nil => exact absurd rfl hm1
    | cons c mm => rfl
  have hzhead : ∀ c, (('$' :: (m ++ b)) : List Char).head? = some c →
      c.isDigit = false := by
    intro c hc
    rw [← Option.some.inj hc]
    rfl
  intro f
  induction f using Nat.strong_induction_on with
  | _ f ih =>
    intro a ha
    cases a with
    | nil =>
      rw [List.nil_append, rewritePlaceholders_cons, if_pos rfl, hsplit.1,
        hsplit.2, hmne]
      rfl
    | cons c rest =>
      have hlt : rest.length < f := lt_of_lt_of_le (Nat.lt_succ_self _) ha
      have hih := ih rest.length hlt rest le_rfl
      by_cases hc : c = '$'
      · subst hc
        have happ := takeWhile_append_nondigit ('$' :: (m ++ b)) hzhead rest
        rw [List.cons_append, rewritePlaceholders_cons, if_pos rfl, happ.1,
          happ.2]
        by_cases he : (rest.takeWhile Char.isDigit).isEmpty
        · rw [if_pos he, hih, rewritePlaceholders_cons, if_pos rfl,
            if_pos he, List.cons_append]
        · rw [if_neg he]
          have hih2 := ih (rest.dropWhile Char.isDigit).length
            (lt_of_le_of_lt (dropWhile_length_le _ _) hlt)
            (rest.dropWhile Char.isDigit) le_rfl
          rw [hih2, rewritePlaceholders_cons, if_pos rfl, if_neg he,
            List.cons_append]
      · rw [List.cons_append, rewritePlaceholders_cons, if_neg hc, hih,
          rewritePlaceholders_cons, if_neg hc, List.cons_append]

/-- C10: the embedded-path rewrite replaces every dollar-plus-digits token
with one question mark — ignoring the numeric index and matching anywhere
in the statement text, including inside quoted SQL string literals — so
sqlite binds the params list by textual placeholder position while postgres
binds by numeric index: on a statement whose placeholders appear out of
numeric order the two backends bind the same params to different
positions. -/
theorem adapter_placeholder_rewrite_divergence
    (a m b : List Char) (hm1 : m ≠ []) (hm2 : ∀ c ∈ m, c.isDigit)
    (hb : ∀ c, b.head? = some c → c.isDigit = false) :
    rewritePlaceholders (a ++ ('$' :: (m ++ b)))
        = rewritePlaceholders a ++ '?' :: rewritePlaceholders b ∧
    rewritePlaceholders quotedSql = quotedSqlRewritten ∧
    pgBindings outOfOrderSql [10, 20] = [some 20, some 10] ∧
    sqliteBindings outOfOrderSql [10, 20] = [some 10, some 20] ∧
    pgBindings outOfOrderSql [10, 20] ≠ sqliteBindings outOfOrderSql [10, 20] :=
  ⟨rewrite_append_aux m b hm1 hm2 hb a.length a le_rfl, by decide, by decide,
    by decide, by decide⟩

/-- Witness for C10 instantiating the general rewrite property at a
concrete statement fragment, discharging its three hypotheses. -/
theorem adapter_placeholder_rewrite_divergence_witness :
    rewritePlaceholders ("id=".data ++ ('$' :: (['7'] ++ [])))
        = rewritePlaceholders "id=".data ++ '?' :: rewritePlaceholders [] :=
  (adapter_placeholder_rewrite_divergence "id=".data ['7'] []
    (by decide) (fun c hc => by rw [List.mem_singleton.mp hc]; decide)
    (fun c h => Option.noConfusion h)).1

/-- Counterexample to C1: for the client insert of server.js line 187 run
over both backends holding the same logical store (next id 7), execute
resolves with values of different shapes — pg rows and rowCount versus
sqlite lastID and changes — so the field names are not identical and the
inserted id is not normalized inside the adapter; line 187 itself branches
on the backend to extract it. -/
theorem adapter_execute_shape_counterexample :
    runFieldNames (dbRun (.pg (pgInsertDriver 7)) insertClientSql [1, 2, 3, 4])
      ≠ runFieldNames
          (dbRun (.sq (sqInsertDriver 7)) insertClientSql [1, 2, 3, 4]) := by
  decide

/-- C1 amended: fetchOne and fetchMany are backend-equivalent — over
backends holding the same logical rows they return identical values — but
execute is not: it resolves with the raw driver result, whose field names
differ between the backends, and the inserted identifier is obtained by the
calling handler through an explicit branch on the active backend
(result.rows[0].id versus result.lastID), after which both backends yield
the same identifier. -/
theorem adapter_backend_equivalence_amended (nextId : Int) (rows : List Row)
    (sql : String) (ps : List Int) :
    extractInsertedId (dbRun (.pg (pgInsertDriver nextId)) sql ps)
        = some nextId ∧
    extractInsertedId (dbRun (.sq (sqInsertDriver nextId)) sql ps)
        = some nextId ∧
    dbGet (.pg (pgSelectDriver rows)) sql ps
        = dbGet (.sq (sqSelectDriver rows)) sql ps ∧
    dbAll (.pg (pgSelectDriver rows)) sql ps
        = dbAll (.sq (sqSelectDriver rows)) sql ps ∧
    runFieldNames (dbRun (.pg (pgInsertDriver nextId)) sql ps)
      ≠ runFieldNames (dbRun (.sq (sqInsertDriver nextId)) sql ps) := by
  refine ⟨?_, rfl, rfl, rfl, ?_⟩
  · show (([[("id", nextId)]] : List Row).head?.bind
        fun row => lookupRow row "id") = some nextId
    simp [lookupRow]
  · intro h
    have h1 : runFieldNames (dbRun (.pg (pgInsertDriver nextId)) sql ps)
        = ["rows", "rowCount"] := rfl
    have h2 : runFieldNames (dbRun (.sq (sqInsertDriver nextId)) sql ps)
        = ["lastID", "changes"] := rfl
    rw [h1, h2] at h
    exact absurd h (by decide)

/-- C7: the adapter operations never catch, transform or retry a driver
error — the rejection of the single driver call propagates unmodified —
and if any of the three dashboard reads fails, the whole aggregation fails
and the handler answers 500 with the error body, never a partial payload;
only when all three reads resolve does it answer 200 with the payload. -/
theorem error_propagation_correct :
    (∀ (db : PgDbE) (sql : String) (ps : List Int) (e : String),
      db.query sql ps = .error e →
        dbRunE (.pg db) sql ps = .error e ∧
        dbGetE (.pg db) sql ps = .error e ∧
        dbAllE (.pg db) sql ps = .error e) ∧
    (∀ (db : SqDbE) (sql : String) (ps : List Int) (e : String),
      (db.run (rewriteSql sql) ps = .error e →
        dbRunE (.sq db) sql ps = .error e) ∧
      (db.get (rewriteSql sql) ps = .error e →
        dbGetE (.sq db) sql ps = .error e) ∧
      (db.all (rewriteSql sql) ps = .error e →
        dbAllE (.sq db) sql ps = .error e)) ∧
    (∀ (now : DT) (r1 : Except String (List Order))
        (r2 : Except String (List MRow)) (r3 : Except String (List ORow)),
      ((∃ e, r1 = .error e) ∨ (∃ e, r2 = .error e) ∨ (∃ e, r3 = .error e)) →
        dashboardHandler now r1 r2 r3
          = { status := 500, body := .errorMsg dashboardErrorMsg }) ∧
    (∀ (now : DT) (a : List Order) (ms : List MRow) (oft : List ORow),
      dashboardHandler now (.ok a) (.ok ms) (.ok oft)
        = { status := 200,
            body := .payload (dashboardPayload now a ms oft) }) := by
  refine ⟨?_, ?_, ?_, ?_⟩
  · intro db sql ps e h
    refine ⟨?_, ?_, ?_⟩ <;> simp [dbRunE, dbGetE, dbAllE, h, Except.map]
  · intro db sql ps e
    refine ⟨fun h => ?_, fun h => ?_, fun h => ?_⟩ <;>
      simp [dbRunE, dbGetE, dbAllE, h, Except.map]
  · intro now r1 r2 r3 h
    rcases h with ⟨e, he⟩ | ⟨e, he⟩ | ⟨e, he⟩ <;> subst he
    · rfl
    · cases r1 <;> rfl
    · cases r1 <;> try rfl
      cases r2 <;> rfl
  · intro now a ms oft
    rfl

/-- Witness for C7: a rejecting driver and a failing first read at concrete
inputs, discharging the error hypotheses. -/
theorem error_propagation_correct_witness :
    dbRunE (.pg { query := fun _ _ => .error "down" }) "SELECT 1" []
        = .error "down" ∧
    dashboardHandler ⟨2024, 7, 0⟩ (.error "boom") (.ok []) (.ok [])
      = { status := 500, body := .errorMsg dashboardErrorMsg } :=
  ⟨(error_propagation_correct.1 { query := fun _ _ => .error "down" }
      "SELECT 1" [] "down" rfl).1,
   error_propagation_correct.2.2.1 ⟨2024, 7, 0⟩ (.error "boom") (.ok [])
      (.ok []) (Or.inl ⟨"boom", rfl⟩)⟩

/-- Witness for C2: the KPI equalities instantiated at a concrete row
set. -/
theorem dashboard_kpis_correct_witness :
    (kpisOf (activeOrdersOf [])).netProfit
      = (kpisOf (activeOrdersOf [])).totalPaid
        - (kpisOf (activeOrdersOf [])).totalCosts :=
  (dashboard_kpis_correct []).2.2.2.2

/-- Witness for C3: the count-sum equality instantiated at a concrete row
set. -/
theorem dashboard_status_summary_correct_witness :
    ((statusSummaryOf (activeOrdersOf [])).map SC.count).sum
      = (activeOrdersOf []).length :=
  (dashboard_status_summary_correct []).2.1

/-- Witness for C5 at the worked-example rows, discharging the membership
hypothesis of the date bound. -/
theorem dashboard_upcoming_tasks_correct_witness :
    (DT.mk 2024 7 0).t ≤
      ({ id := 2, type := "Medición", icon := "build-outline",
         date := ⟨2024, 7, 1⟩, clientName := "Beta",
         clientId := 11 } : Event).date.t :=
  (dashboard_upcoming_tasks_correct ⟨2024, 7, 0⟩ [exOrderRow] [exTaskRow]).1
    _ (by decide)

/-- Witness for C6: the event-construction clause instantiated at the
worked-example order row, discharging its membership, date and bound
hypotheses. -/
theorem dashboard_event_types_correct_witness :
    ({ id := 1, type := "Entrega", icon := "rocket-outline",
       date := ⟨2024, 7, 2⟩, clientName := "Acme",
       clientId := 10 } : Event)
      ∈ orderEvents ⟨2024, 7, 0⟩ [exOrderRow] :=
  dashboard_event_types_correct.2.2.1 ⟨2024, 7, 0⟩ [exOrderRow] exOrderRow
    ⟨2024, 7, 2⟩ (List.mem_singleton_self exOrderRow) rfl (by decide)

end Starwin
